import Mathlib

/-!
Verification of the FinGPT spending-analysis engine (`analyzer.py`) against its
specification. The Python source operates on a pandas DataFrame of transactions;
here the table is a `List Txn` and every aggregate the claims touch is embedded
as an executable Lean function over exact rationals. Modelling conventions:

* pandas `groupby(key)` emits its group keys deduplicated and sorted ascending;
  this is `List.insertionSort (· ≤ ·) (keys.dedup)` followed by per-key sums.
* `sort_values(..., ascending=False)` is modelled as a stable descending sort
  (`List.insertionSort` on the flipped order); the inputs it is applied to are
  tiny per-category tables, where numpy's introsort behaves stably.
* Python `round(x, n)` / numpy `.round(n)` use round-half-to-even; `roundTo`
  implements that exactly on `ℚ`. Decimal literals (`1.2`) are read as exact
  rationals.
* Undefined float results are explicit: the mean of an empty partition (pandas
  `NaN`) is `Option.none`, and the unguarded float division in the
  month-over-month growth is a `MomGrowth` value with dedicated constructors
  for the IEEE non-finite outcomes of a zero divisor.
* Dates are day numbers (`ℤ`); `timedelta(days=k)` is integer subtraction.
-/

namespace FinGPT

/-- Round-half-to-even to an integer, as Python's `round` and numpy's rounding
do on exact halves. -/
def rhe (q : ℚ) : ℤ :=
  if q - ⌊q⌋ = 1 / 2 then (if ⌊q⌋ % 2 = 0 then ⌊q⌋ else ⌊q⌋ + 1) else round q

/-- `roundTo d q` is Python `round(q, d)`: round-half-to-even at `d` decimal
places. -/
def roundTo (d : ℕ) (q : ℚ) : ℚ := (rhe (q * 10 ^ d) : ℚ) / 10 ^ d

/-- Lexicographic code-point comparison of character lists, the order Python
uses to compare `str` values (and hence the order pandas sorts group labels
in). -/
def charListLe : List Char → List Char → Bool
  | [], _ => true
  | _ :: _, [] => false
  | a :: as, b :: bs =>
    if a < b then true else if b < a then false else charListLe as bs

def charListLe_total : ∀ a b : List Char,
    charListLe a b = true ∨ charListLe b a = true
  | [], _ => Or.inl rfl
  | _ :: _, [] => Or.inr rfl
  | a :: as, b :: bs => by
    rcases lt_trichotomy a b with h | h | h
    · exact Or.inl (by simp [charListLe, h])
    · rcases charListLe_total as bs with h' | h' <;>
        [exact Or.inl (by simp [charListLe, h, h']);
         exact Or.inr (by simp [charListLe, h, h'])]
    · exact Or.inr (by simp [charListLe, h])

def charListLe_trans : ∀ a b c : List Char,
    charListLe a b = true → charListLe b c = true → charListLe a c = true
  | [], _, _, _, _ => rfl
  | _ :: _, [], _, hab, _ => by simp [charListLe] at hab
  | _ :: _, _ :: _, [], _, hbc => by simp [charListLe] at hbc
  | a :: as, b :: bs, c :: cs, hab, hbc => by
    simp only [charListLe] at hab hbc ⊢
    rcases lt_trichotomy a b with h1 | h1 | h1
    · rcases lt_trichotomy b c with h2 | h2 | h2
      · simp [h1.trans h2]
      · simp [h2 ▸ h1]
      · simp only [if_neg (lt_asymm h2), if_pos h2] at hbc
        exact absurd hbc (by simp)
    · subst h1
      rcases lt_trichotomy a c with h2 | h2 | h2
      · simp [h2]
      · subst h2
        simp only [lt_irrefl, if_neg (lt_irrefl a), if_neg] at hab hbc ⊢
        exact charListLe_trans as bs cs hab hbc
      · simp only [if_neg (lt_asymm h2), if_pos h2] at hbc
        exact absurd hbc (by simp)
    · simp only [if_neg (lt_asymm h1), if_pos h1] at hab
      exact absurd hab (by simp)

def charListLe_antisymm : ∀ a b : List Char,
    charListLe a b = true → charListLe b a = true → a = b
  | [], [], _, _ => rfl
  | [], _ :: _, _, hba => by simp [charListLe] at hba
  | _ :: _, [], hab, _ => by simp [charListLe] at hab
  | a :: as, b :: bs, hab, hba => by
    simp only [charListLe] at hab hba
    rcases lt_trichotomy a b with h | h | h
    · simp [charListLe, h, lt_asymm h] at hba
    · subst h
      simp only [lt_irrefl, if_neg (lt_irrefl _), if_neg] at hab hba
      exact congrArg (a :: ·) (charListLe_antisymm as bs hab hba)
    · simp [charListLe, h, lt_asymm h] at hab

/-- Python's `≤` on strings: code-point lexicographic. -/
def strLe (s t : String) : Prop := charListLe s.data t.data = true

instance : DecidableRel strLe := fun s t => by
  unfold strLe; infer_instance

instance : IsTotal String strLe := ⟨fun s t => charListLe_total s.data t.data⟩

instance : IsTrans String strLe :=
  ⟨fun _ _ _ h h' => charListLe_trans _ _ _ h h'⟩

instance : IsAntisymm String strLe := by
  constructor
  intro a b h h'
  cases a; cases b
  exact congrArg String.mk (charListLe_antisymm _ _ h h')

/-- One row of the transaction table, with the loader-derived columns the
analyzer reads (`data_loader._add_time_features`): `year`/`month` from the
date, `isWeekend` true for Saturday/Sunday. Columns no verified operation
reads (`weekday` name, `week_number`, `day`) are omitted. -/
structure Txn where
  date : ℤ
  category : String
  amount : ℚ
  year : ℤ
  month : ℤ
  isWeekend : Bool
  deriving DecidableEq, Repr

/-- The table invariant guaranteed by the loader (§3 of the spec): non-empty,
positive amounts, non-empty category labels, and calendar months. -/
def validTable (t : List Txn) : Prop :=
  t ≠ [] ∧ ∀ r ∈ t, 0 < r.amount ∧ r.category ≠ "" ∧ 1 ≤ r.month ∧ r.month ≤ 12

instance (t : List Txn) : Decidable (validTable t) := by
  unfold validTable; infer_instance

/-- All transaction amounts, in table order. -/
def amountsOf (t : List Txn) : List ℚ := t.map (·.amount)

/-- `self.total_spending = data['amount'].sum()`. -/
def totalSpending (t : List Txn) : ℚ := (amountsOf t).sum

/-- `data['date'].max()` (junk 0 on the empty table the source never sees). -/
def maxDate (t : List Txn) : ℤ :=
  match t.map (·.date) with
  | [] => 0
  | d :: ds => ds.foldl max d

/-- `data['date'].min()`. -/
def minDate (t : List Txn) : ℤ :=
  match t.map (·.date) with
  | [] => 0
  | d :: ds => ds.foldl min d

/-- `(date_range[1] - date_range[0]).days + 1`, the inclusive day span. -/
def daysSpan (t : List Txn) : ℤ := maxDate t - minDate t + 1

/-- Sum of the amounts of the rows in category `c`:
`data[data['category'] == c]['amount'].sum()`. -/
def catSum (t : List Txn) (c : String) : ℚ :=
  ((t.filter (fun r => decide (r.category = c))).map (·.amount)).sum

/-- The distinct category labels as `groupby('category')` orders them:
deduplicated and sorted ascending by label. -/
def catKeys (t : List Txn) : List String :=
  List.insertionSort strLe (t.map (·.category)).dedup

/-- The per-category `(label, total)` rows of `category_stats` after the
`.round(2)` of the aggregation, still in group-key (label) order. -/
def categoryPairs (t : List Txn) : List (String × ℚ) :=
  (catKeys t).map (fun c => (c, roundTo 2 (catSum t c)))

/-- The ordering `sort_values('total', ascending=False)` sorts by: descending
rounded total. -/
def byTotalDesc (p q : String × ℚ) : Prop := q.2 ≤ p.2

instance : DecidableRel byTotalDesc := fun p q => by
  unfold byTotalDesc; infer_instance

instance : IsTotal (String × ℚ) byTotalDesc :=
  ⟨fun p q => le_total q.2 p.2⟩

instance : IsTrans (String × ℚ) byTotalDesc :=
  ⟨fun _ _ _ h h' => le_trans h' h⟩

/-- `category_stats` after `sort_values('total', ascending=False)`: a stable
descending sort of the label-ordered per-category rows. -/
def categorySorted (t : List Txn) : List (String × ℚ) :=
  List.insertionSort byTotalDesc (categoryPairs t)

/-- The category labels in the order the sorted breakdown lists them. -/
def categoryOrder (t : List Txn) : List String := (categorySorted t).map (·.1)

/-- Tie-break relation for the sorted category rows: rows with equal (rounded)
totals appear in strictly ascending label order. -/
def tieBreak (p q : String × ℚ) : Prop :=
  p.2 = q.2 → strLe p.1 q.1 ∧ p.1 ≠ q.1

/-- `category_stats.head(5)`, the top-categories slice. -/
def topCategories (t : List Txn) : List (String × ℚ) := (categorySorted t).take 5

/-- The `percentage` column: `(rounded total / total_spending * 100).round(1)`. -/
def categoryPercentage (t : List Txn) (c : String) : ℚ :=
  roundTo 1 (roundTo 2 (catSum t c) / totalSpending t * 100)

/-- The distinct transaction dates as `groupby('date')` orders them:
deduplicated and sorted ascending (chronological). -/
def dateKeys (t : List Txn) : List ℤ :=
  List.insertionSort (· ≤ ·) (t.map (·.date)).dedup

/-- Total spend on calendar day `d`. -/
def daySum (t : List Txn) (d : ℤ) : ℚ :=
  ((t.filter (fun r => decide (r.date = d))).map (·.amount)).sum

/-- `data.groupby('date')['amount'].sum().sort_index()`: daily totals in
chronological order. -/
def dailyTotals (t : List Txn) : List ℚ := (dateKeys t).map (daySum t)

/-- The `(year, month)` group key of a row. -/
def monthKey (r : Txn) : ℤ × ℤ := (r.year, r.month)

/-- Lexicographic order on `(year, month)` keys, the order
`groupby(['year', 'month'])` sorts its groups in (chronological for calendar
months). -/
def monthLe (a b : ℤ × ℤ) : Prop := a.1 < b.1 ∨ (a.1 = b.1 ∧ a.2 ≤ b.2)

instance : DecidableRel monthLe := fun a b => by
  unfold monthLe; infer_instance

instance : IsTotal (ℤ × ℤ) monthLe := by
  constructor
  intro a b
  rcases lt_trichotomy a.1 b.1 with h | h | h
  · exact Or.inl (Or.inl h)
  · rcases le_total a.2 b.2 with h2 | h2
    · exact Or.inl (Or.inr ⟨h, h2⟩)
    · exact Or.inr (Or.inr ⟨h.symm, h2⟩)
  · exact Or.inr (Or.inl h)

instance : IsTrans (ℤ × ℤ) monthLe := by
  constructor
  rintro a b c (h | ⟨h, h2⟩) (h' | ⟨h', h2'⟩)
  · exact Or.inl (h.trans h')
  · exact Or.inl (h'.symm ▸ h)
  · exact Or.inl (h ▸ h')
  · exact Or.inr ⟨h.trans h', h2.trans h2'⟩

/-- The distinct `(year, month)` keys in the (chronological) order
`groupby(['year', 'month'])` emits them. -/
def monthKeys (t : List Txn) : List (ℤ × ℤ) :=
  List.insertionSort monthLe (t.map monthKey).dedup

/-- Total spend in the month bucket `k`. -/
def monthSum (t : List Txn) (k : ℤ × ℤ) : ℚ :=
  ((t.filter (fun r => decide (monthKey r = k))).map (·.amount)).sum

/-- `data.groupby(['year', 'month'])['amount'].sum()`: monthly totals in
chronological order. -/
def monthlyTotals (t : List Txn) : List ℚ := (monthKeys t).map (monthSum t)

/-- Value of the `mom_growth` entry of the trends dict. `absent` means the key
is not set (fewer than 2 months). The source computes
`round(((current - previous) / previous) * 100, 1)` on floats with no guard on
`previous = 0`; a zero divisor yields an IEEE non-finite float (`inf`/`nan`,
no exception, numpy only warns), modelled by the dedicated constructors. -/
inductive MomGrowth where
  | absent
  | posInf
  | negInf
  | nan
  | value (g : ℚ)
  deriving DecidableEq, Repr

/-- The month-over-month growth computation of `_analyze_trends` on a list of
monthly totals: the last two totals are `previous` and `current`. -/
def momGrowthOf (totals : List ℚ) : MomGrowth :=
  if totals.length > 1 then
    let prev := totals.getD (totals.length - 2) 0
    let cur := totals.getD (totals.length - 1) 0
    if prev = 0 then
      if 0 < cur then .posInf else if cur < 0 then .negInf else .nan
    else .value (roundTo 1 ((cur - prev) / prev * 100))
  else .absent

/-- `trends['mom_growth']` for a table. -/
def momGrowth (t : List Txn) : MomGrowth := momGrowthOf (monthlyTotals t)

/-- `rolling(window=w).mean().iloc[-1]`: the mean of the last `w` entries. -/
def lastWindowMean (l : List ℚ) (w : ℕ) : ℚ := (l.drop (l.length - w)).sum / w

/-- `trends['7_day_avg']`, set only when `len(daily_spending) > 7`. -/
def sevenDayAvg (t : List Txn) : Option ℚ :=
  if 7 < (dailyTotals t).length then some (lastWindowMean (dailyTotals t) 7)
  else none

/-- `trends['30_day_avg']`, set only when `len(daily_spending) > 30`. -/
def thirtyDayAvg (t : List Txn) : Option ℚ :=
  if 30 < (dailyTotals t).length then some (lastWindowMean (dailyTotals t) 30)
  else none

/-- `_calculate_monthly_trend` on the chronological monthly totals. -/
def monthlyTrendOf (totals : List ℚ) : String :=
  if totals.length < 3 then "Insufficient data for trend analysis"
  else
    let recent := totals.drop (totals.length - 3)
    if recent.headD 0 < recent.getLastD 0 then "Increasing"
    else if recent.getLastD 0 < recent.headD 0 then "Decreasing"
    else "Stable"

/-- The monthly totals as `_analyze_by_time` reports them: the aggregation is
rounded to 2 decimals (`.round(2)`) before further use. -/
def monthlyTotalsRounded (t : List Txn) : List ℚ :=
  (monthlyTotals t).map (roundTo 2)

/-- The `monthly_trend` field of the time analysis:
`_calculate_monthly_trend` receives the rounded `monthly` frame, so the
classification compares the rounded monthly totals. -/
def monthlyTrend (t : List Txn) : String :=
  monthlyTrendOf (monthlyTotalsRounded t)

/-- `data[data['date'] >= data['date'].max() - timedelta(days=30)]`: the rows
feeding the recent-daily breakdown. -/
def recentData (t : List Txn) : List Txn :=
  t.filter (fun r => decide (maxDate t - 30 ≤ r.date))

/-- `daily_recent`: the recent rows grouped by date (ascending), summed and
rounded to 2 decimals (`.sum().round(2)`). -/
def dailyRecent (t : List Txn) : List (ℤ × ℚ) :=
  (dateKeys (recentData t)).map
    (fun d => (d, roundTo 2 (daySum (recentData t) d)))

/-- Amounts of the weekend rows (`data[data['is_weekend']]['amount']`). -/
def weekendAmounts (t : List Txn) : List ℚ :=
  (t.filter (·.isWeekend)).map (·.amount)

/-- Amounts of the weekday rows (`data[~data['is_weekend']]['amount']`). -/
def weekdayAmounts (t : List Txn) : List ℚ :=
  (t.filter (fun r => !r.isWeekend)).map (·.amount)

/-- pandas `Series.mean()`: `NaN` (here `none`) on an empty series. -/
def meanOf (l : List ℚ) : Option ℚ :=
  if l.isEmpty then none else some (l.sum / l.length)

/-- `weekend_vs_weekday['weekend_avg']`. -/
def weekendAvg (t : List Txn) : Option ℚ := meanOf (weekendAmounts t)

/-- `weekend_vs_weekday['weekday_avg']`. -/
def weekdayAvg (t : List Txn) : Option ℚ := meanOf (weekdayAmounts t)

/-- numpy's default linear-interpolation percentile of a list at fraction `q`
(`Series.quantile`): position `q * (n - 1)` into the ascending sort. -/
def quantileLinear (l : List ℚ) (q : ℚ) : ℚ :=
  let s := List.insertionSort (· ≤ ·) l
  let n := s.length
  let pos : ℚ := q * ((n : ℚ) - 1)
  let i : ℕ := (⌊pos⌋).toNat
  let a := s.getD i 0
  let b := s.getD (i + 1) a
  a + (pos - ⌊pos⌋) * (b - a)

/-- `outlier_threshold = Q3 + 1.5 * IQR` over all transaction amounts
(`1.5` is exactly representable, so `3/2` is the float the source uses). -/
def outlierThreshold (t : List Txn) : ℚ :=
  let q1 := quantileLinear (amountsOf t) (1 / 4)
  let q3 := quantileLinear (amountsOf t) (3 / 4)
  q3 + 3 / 2 * (q3 - q1)

/-- `num_outliers`: rows with amount strictly above the threshold. -/
def numOutliers (t : List Txn) : ℕ :=
  (t.filter (fun r => decide (outlierThreshold t < r.amount))).length

/-- The structured content of the templated sentences `_generate_insights`
appends; the `Nonfinite` constructors stand for sentences whose interpolated
number is an IEEE non-finite float. -/
inductive Insight where
  | topCategory (name : String) (pct : ℚ)
  | weekendSpending (pct : ℚ)
  | weekendSpendingNonfinite
  | momIncrease (pct : ℚ)
  | momIncreaseNonfinite
  | momDecrease (pct : ℚ)
  | momDecreaseNonfinite
  | outlierCount (count : ℕ) (threshold : ℚ)
  deriving DecidableEq, Repr

/-- The weekend-spending rule: emitted iff `weekend_avg > weekday_avg * 1.2`,
which is false whenever either mean is `NaN`; the interpolated percentage is
`round((weekend_avg / weekday_avg - 1) * 100, 1)` (non-finite if the weekday
mean is exactly zero, impossible on a valid table). -/
def weekendInsight (t : List Txn) : List Insight :=
  match weekendAvg t, weekdayAvg t with
  | some a, some b =>
    if b * (12 / 10) < a then
      if b = 0 then [.weekendSpendingNonfinite]
      else [.weekendSpending (roundTo 1 ((a / b - 1) * 100))]
    else []
  | _, _ => []

/-- The month-over-month rule: with `mom_growth` set, `> 10` emits an increase
insight, `< -10` a decrease insight interpolating `abs(mom_growth)`; IEEE
comparisons make `+inf` an increase, `-inf` a decrease, `nan` nothing. -/
def momInsight (t : List Txn) : List Insight :=
  match momGrowth t with
  | .value g =>
    if 10 < g then [.momIncrease g]
    else if g < -10 then [.momDecrease |g|]
    else []
  | .posInf => [.momIncreaseNonfinite]
  | .negInf => [.momDecreaseNonfinite]
  | .nan => []
  | .absent => []

/-- The outlier rule: emitted iff `num_outliers > 0`, citing the count and the
rounded threshold. -/
def outlierInsight (t : List Txn) : List Insight :=
  if 0 < numOutliers t then
    [.outlierCount (numOutliers t) (roundTo 2 (outlierThreshold t))]
  else []

/-- `list(category_analysis['top_categories'].keys())[0]`: the label heading
the sorted breakdown (the source's `[0]` presupposes a non-empty table; the
`headD` default is never read on one). -/
def topCategoryName (t : List Txn) : String := (categoryOrder t).headD ""

/-- `_generate_insights`: the top-category insight is always first, then the
three conditional rules in order. -/
def generateInsights (t : List Txn) : List Insight :=
  .topCategory (topCategoryName t) (categoryPercentage t (topCategoryName t)) ::
    (weekendInsight t ++ momInsight t ++ outlierInsight t)

/-- The fields of the dict `simulate_savings` returns, already rounded at the
boundary as the source rounds them. -/
structure SavingsResult where
  category : String
  currentSpending : ℚ
  reductionPercentage : ℚ
  potentialSavings : ℚ
  monthlySavingsEstimate : ℚ
  annualSavingsEstimate : ℚ
  newCategoryTotal : ℚ
  deriving DecidableEq, Repr

/-- `simulate_savings`: raises `ValueError` (here `.error`) when the category
is not among the table's category values, otherwise returns the projection.
(The source's message wraps the category name in single quotes; the quotes are
elided here.) -/
def simulateSavings (t : List Txn) (c : String) (reductionPercentage : ℚ) :
    Except String SavingsResult :=
  if c ∈ t.map (·.category) then
    let categoryTotal := catSum t c
    let potentialSavings := categoryTotal * (reductionPercentage / 100)
    let daysInData : ℚ := (daysSpan t : ℚ)
    let monthlySavings := potentialSavings * (30 / daysInData)
    let annualSavings := potentialSavings * (365 / daysInData)
    .ok
      { category := c
        currentSpending := roundTo 2 categoryTotal
        reductionPercentage := reductionPercentage
        potentialSavings := roundTo 2 potentialSavings
        monthlySavingsEstimate := roundTo 2 monthlySavings
        annualSavingsEstimate := roundTo 2 annualSavings
        newCategoryTotal := roundTo 2 (categoryTotal - potentialSavings) }
  else .error ("Category " ++ c ++ " not found in data")

/-- Row builder for the concrete example tables. -/
def mkRow (d : ℤ) (c : String) (a : ℚ) (y m : ℤ) (w : Bool) : Txn :=
  { date := d, category := c, amount := a, year := y, month := m, isWeekend := w }

/-- Two-month table with monthly totals `[100, 0]` (the second month's only
transaction has amount 0, so the table is outside the loader's invariant, as
any table with a zero monthly total must be). -/
def exD : List Txn := [mkRow 0 "A" 100 2024 1 false, mkRow 31 "A" 0 2024 2 false]

/-- Single-month table (only one monthly bucket). -/
def exOne : List Txn := [mkRow 0 "A" 50 2024 1 false]

/-- Two transactions exactly 30 days apart. -/
def exC2 : List Txn := [mkRow 0 "Food" 10 2024 1 false, mkRow 30 "Food" 20 2024 1 false]

/-- Two categories with equal totals, `"Zoo"` appearing first in the table. -/
def exC3 : List Txn := [mkRow 0 "Zoo" 5 2024 1 false, mkRow 1 "Apple" 5 2024 1 false]

/-- Small all-weekday, single-month, single-category table. -/
def exW : List Txn := [mkRow 0 "A" 10 2024 1 false, mkRow 1 "A" 20 2024 1 false]

/-- Eight consecutive days of unit spending. -/
def exC7 : List Txn :=
  [mkRow 0 "A" 1 2024 1 false, mkRow 1 "A" 1 2024 1 false, mkRow 2 "A" 1 2024 1 false,
   mkRow 3 "A" 1 2024 1 false, mkRow 4 "A" 1 2024 1 false, mkRow 5 "A" 1 2024 1 false,
   mkRow 6 "A" 1 2024 1 false, mkRow 7 "A" 1 2024 1 false]

/-- Three months with totals `[10, 20, 15]`. -/
def exC8 : List Txn :=
  [mkRow 0 "A" 10 2024 1 false, mkRow 31 "A" 20 2024 2 false, mkRow 60 "A" 15 2024 3 false]

theorem mem_catKeys {t : List Txn} {c : String} :
    c ∈ catKeys t ↔ c ∈ t.map (·.category) := by
  simp [catKeys, List.mem_insertionSort, List.mem_dedup]

theorem mem_dateKeys {t : List Txn} {d : ℤ} :
    d ∈ dateKeys t ↔ d ∈ t.map (·.date) := by
  simp [dateKeys, List.mem_insertionSort, List.mem_dedup]

theorem mem_monthKeys {t : List Txn} {k : ℤ × ℤ} :
    k ∈ monthKeys t ↔ k ∈ t.map monthKey := by
  simp [monthKeys, List.mem_insertionSort, List.mem_dedup]

theorem length_dateKeys (t : List Txn) :
    (dateKeys t).length = (t.map (·.date)).dedup.length := by
  simp [dateKeys, List.length_insertionSort]

theorem length_monthKeys (t : List Txn) :
    (monthKeys t).length = (t.map monthKey).dedup.length := by
  simp [monthKeys, List.length_insertionSort]

theorem dateKeys_sorted (t : List Txn) : (dateKeys t).Sorted (· < ·) := by
  have hs : (dateKeys t).Sorted (· ≤ ·) := List.sorted_insertionSort _ _
  have hn : (dateKeys t).Nodup :=
    ((List.perm_insertionSort _ _).nodup_iff).2 (List.nodup_dedup _)
  exact hs.lt_of_le hn

theorem monthKeys_sorted (t : List Txn) : (monthKeys t).Sorted monthLe :=
  List.sorted_insertionSort _ _

theorem monthKeys_nodup (t : List Txn) : (monthKeys t).Nodup :=
  ((List.perm_insertionSort _ _).nodup_iff).2 (List.nodup_dedup _)

/-- Each monthly total is the sum of the amounts of a non-empty group of rows,
so on a valid table every monthly total is strictly positive. -/
theorem monthlyTotals_pos {t : List Txn} (h : validTable t) :
    ∀ x ∈ monthlyTotals t, 0 < x := by
  intro x hx
  rcases List.mem_map.1 hx with ⟨k, hk, rfl⟩
  rcases List.mem_map.1 (mem_monthKeys.1 hk) with ⟨r, hr, hrk⟩
  apply List.sum_pos
  · intro a ha
    rcases List.mem_map.1 ha with ⟨s, hs, rfl⟩
    exact (h.2 s (List.mem_of_mem_filter hs)).1
  · intro hnil
    rw [List.map_eq_nil_iff, List.filter_eq_nil_iff] at hnil
    exact hnil r hr (by simp [hrk])

/-- On a valid table a defined partition mean is strictly positive. -/
theorem meanOf_pos {l : List ℚ} {b : ℚ} (hpos : ∀ x ∈ l, 0 < x)
    (hb : meanOf l = some b) : 0 < b := by
  unfold meanOf at hb
  by_cases hl : l.isEmpty
  · simp [hl] at hb
  · simp only [hl, if_neg] at hb
    cases hb
    have hne : l ≠ [] := by simpa [List.isEmpty_iff] using hl
    have hs : 0 < l.sum := List.sum_pos l hpos hne
    have hlen : (0 : ℚ) < l.length := by
      have : 0 < l.length := List.length_pos.2 hne
      exact_mod_cast this
    exact div_pos hs hlen

theorem roundTo_zero (d : ℕ) : roundTo d 0 = 0 := by
  simp [roundTo, rhe]

/-- Rounding an integer value at any number of decimals returns it
unchanged. -/
theorem roundTo_intCast (d : ℕ) (n : ℤ) : roundTo d (n : ℚ) = n := by
  unfold roundTo rhe
  have h1 : ((n : ℚ) * 10 ^ d) = ((n * 10 ^ d : ℤ) : ℚ) := by
    push_cast
    ring
  rw [h1, Int.floor_intCast, round_intCast]
  rw [if_neg (by norm_num)]
  rw [div_eq_iff (by positivity)]
  push_cast
  ring

/-- **C6**: the savings simulation fails iff the requested category is absent
from the table's distinct category values; an absent category is rejected with
a category-not-found error and no result structure, a present category always
succeeds. -/
theorem savings_category_check (t : List Txn) (c : String) (p : ℚ)
    (h : validTable t) :
    ((∃ res, simulateSavings t c p = Except.ok res) ↔ c ∈ t.map (·.category)) ∧
    (c ∉ t.map (·.category) →
      simulateSavings t c p =
        Except.error ("Category " ++ c ++ " not found in data")) := by
  by_cases hc : c ∈ t.map (·.category) <;>
    simp [simulateSavings, hc]

theorem savings_category_check_witness :
    validTable exW ∧
    ((∃ res, simulateSavings exW "B" 0 = Except.ok res) ↔
      "B" ∈ exW.map (·.category)) ∧
    ("B" ∉ exW.map (·.category) →
      simulateSavings exW "B" 0 =
        Except.error ("Category " ++ "B" ++ " not found in data")) :=
  ⟨by norm_num [validTable, exW, mkRow, List.cons_ne_nil]; decide,
   savings_category_check exW "B" 0 (by norm_num [validTable, exW, mkRow, List.cons_ne_nil]; decide)⟩

/-- **C5**: for a present category the savings simulation returns
`potential_savings = category_total * reduction_percentage / 100`,
`monthly = potential_savings * 30 / days_span`,
`annual = potential_savings * 365 / days_span` (all rounded to 2 decimals at
the boundary); a reduction of 0 yields zero potential savings and an unchanged
category total, and a reduction of 100 yields a zero new category total. -/
theorem savings_formulas (t : List Txn) (c : String) (p : ℚ)
    (h : validTable t) (hc : c ∈ t.map (·.category)) :
    simulateSavings t c p = Except.ok
      { category := c
        currentSpending := roundTo 2 (catSum t c)
        reductionPercentage := p
        potentialSavings := roundTo 2 (catSum t c * (p / 100))
        monthlySavingsEstimate :=
          roundTo 2 (catSum t c * (p / 100) * (30 / (daysSpan t : ℚ)))
        annualSavingsEstimate :=
          roundTo 2 (catSum t c * (p / 100) * (365 / (daysSpan t : ℚ)))
        newCategoryTotal := roundTo 2 (catSum t c - catSum t c * (p / 100)) } ∧
    (p = 0 → roundTo 2 (catSum t c * (p / 100)) = 0 ∧
      roundTo 2 (catSum t c - catSum t c * (p / 100)) = roundTo 2 (catSum t c)) ∧
    (p = 100 → roundTo 2 (catSum t c - catSum t c * (p / 100)) = 0) := by
  refine ⟨by simp [simulateSavings, hc], ?_, ?_⟩
  · rintro rfl
    norm_num [roundTo_zero]
  · rintro rfl
    norm_num [roundTo_zero]

theorem savings_formulas_witness :
    validTable exW ∧ "A" ∈ exW.map (·.category) ∧
    (simulateSavings exW "A" 0 = Except.ok
      { category := "A"
        currentSpending := roundTo 2 (catSum exW "A")
        reductionPercentage := 0
        potentialSavings := roundTo 2 (catSum exW "A" * (0 / 100))
        monthlySavingsEstimate :=
          roundTo 2 (catSum exW "A" * (0 / 100) * (30 / (daysSpan exW : ℚ)))
        annualSavingsEstimate :=
          roundTo 2 (catSum exW "A" * (0 / 100) * (365 / (daysSpan exW : ℚ)))
        newCategoryTotal :=
          roundTo 2 (catSum exW "A" - catSum exW "A" * (0 / 100)) } ∧
    ((0 : ℚ) = 0 → roundTo 2 (catSum exW "A" * (0 / 100)) = 0 ∧
      roundTo 2 (catSum exW "A" - catSum exW "A" * (0 / 100)) =
        roundTo 2 (catSum exW "A")) ∧
    ((0 : ℚ) = 100 →
      roundTo 2 (catSum exW "A" - catSum exW "A" * (0 / 100)) = 0)) :=
  ⟨by norm_num [validTable, exW, mkRow, List.cons_ne_nil]; decide, by simp [exW, mkRow],
   savings_formulas exW "A" 0 (by norm_num [validTable, exW, mkRow, List.cons_ne_nil]; decide)
     (by simp [exW, mkRow])⟩

/-- **C1** (counterexample): for the claim's own scenario — exactly two
monthly totals `[100, 0]` in chronological order — the previous month's total
is 100, not 0, and `_analyze_trends` reports `mom_growth` as the ordinary
number `-100.0`; it is not flagged undefined or omitted. -/
theorem mom_growth_counterexample :
    monthlyTotals exD = [100, 0] ∧
    momGrowth exD = MomGrowth.value (-100) ∧
    momGrowth exD ≠ MomGrowth.absent := by
  have h : monthlyTotals exD = [100, 0] := by
    norm_num [monthlyTotals, monthKeys, monthSum, monthKey, exD, mkRow,
      List.insertionSort, List.orderedInsert, List.dedup_cons_of_not_mem,
      monthLe, List.filter, List.sum_cons, List.sum_nil]
  have h2 : momGrowth exD = MomGrowth.value (-100) := by
    rw [momGrowth, h]
    norm_num [momGrowthOf, roundTo, rhe, round_eq]
  exact ⟨h, h2, by rw [h2]; exact fun hc => MomGrowth.noConfusion hc⟩

/-- **C1** (amended): `mom_growth` is omitted iff fewer than two monthly
totals exist; with exactly the two chronological monthly totals `[100, 0]` the
previous total is 100 (not 0), no division by zero occurs, and `mom_growth` is
reported as the ordinary number `-100.0`. (The source has no zero-previous
guard at all; a zero previous total — impossible on a valid table, whose
amounts are positive — would produce an IEEE non-finite value, not an
explicit undefined marker, though no error is raised either way.) -/
theorem mom_growth_two_months (t : List Txn) :
    (monthlyTotals t = [100, 0] → momGrowth t = MomGrowth.value (-100)) ∧
    ((monthlyTotals t).length < 2 → momGrowth t = MomGrowth.absent) ∧
    (2 ≤ (monthlyTotals t).length → momGrowth t ≠ MomGrowth.absent) := by
  refine ⟨?_, ?_, ?_⟩
  · intro h
    rw [momGrowth, h]
    norm_num [momGrowthOf, roundTo, rhe, round_eq]
  · intro h
    rw [momGrowth]
    unfold momGrowthOf
    rw [if_neg (by omega)]
  · intro h
    rw [momGrowth]
    unfold momGrowthOf
    rw [if_pos (by omega)]
    dsimp only
    split_ifs <;> simp

theorem mom_growth_two_months_witness :
    (monthlyTotals exD = [100, 0] ∧ momGrowth exD = MomGrowth.value (-100)) ∧
    ((monthlyTotals exOne).length < 2 ∧ momGrowth exOne = MomGrowth.absent) := by
  have hD : monthlyTotals exD = [100, 0] := by
    norm_num [monthlyTotals, monthKeys, monthSum, monthKey, exD, mkRow,
      List.insertionSort, List.orderedInsert, List.dedup_cons_of_not_mem,
      monthLe, List.filter, List.sum_cons, List.sum_nil]
  have hO : (monthlyTotals exOne).length < 2 := by
    norm_num [monthlyTotals, monthKeys, monthSum, monthKey, exOne, mkRow,
      List.insertionSort, List.orderedInsert, List.dedup_cons_of_not_mem,
      monthLe]
  exact ⟨⟨hD, (mom_growth_two_months exD).1 hD⟩,
         ⟨hO, (mom_growth_two_months exOne).2.1 hO⟩⟩

/-- For a day inside the code's window, summing over the window-filtered rows
equals summing over the whole table. -/
theorem daySum_recentData {t : List Txn} {d : ℤ} (hd : maxDate t - 30 ≤ d) :
    daySum (recentData t) d = daySum t d := by
  unfold daySum recentData
  rw [List.filter_filter]
  congr 1
  apply congrArg
  apply List.filter_congr
  intro r _
  by_cases hrd : r.date = d
  · simp [hrd, hd]
  · simp [hrd]

/-- **C2** (counterexample): in `exC2` the maximum date is day 30 and the
transaction dated day 0 (`= max − 30`) is included in the recent-daily
breakdown, although it violates the claim's window `date ≥ max(date) − 29`:
the code filters on `date >= max − timedelta(days=30)`, a 31-day inclusive
window. -/
theorem recent_window_counterexample :
    ((0 : ℤ), (10 : ℚ)) ∈ dailyRecent exC2 ∧ ¬ (maxDate exC2 - 29 ≤ 0) := by
  constructor
  · norm_num [dailyRecent, dateKeys, daySum, recentData, maxDate, exC2, mkRow,
      List.insertionSort, List.orderedInsert, List.dedup_cons_of_not_mem,
      List.filter, List.sum_cons, List.sum_nil,
      (show roundTo 2 (10 : ℚ) = 10 from by simpa using roundTo_intCast 2 10),
      (show roundTo 2 (20 : ℚ) = 20 from by simpa using roundTo_intCast 2 20)]
  · norm_num [maxDate, exC2, mkRow]

/-- **C2** (amended): the recent-daily section contains exactly the
transactions with `date ≥ max(date) − 30` — a trailing 31-day inclusive
window anchored to the table's maximum date — summed per calendar day, each
daily sum rounded to 2 decimals. -/
theorem recent_window (t : List Txn) (h : validTable t) (d : ℤ) :
    ((∃ q, (d, q) ∈ dailyRecent t) ↔
      ((∃ r ∈ t, r.date = d) ∧ maxDate t - 30 ≤ d)) ∧
    (∀ q, (d, q) ∈ dailyRecent t → q = roundTo 2 (daySum t d)) := by
  have hchar : ∀ q, (d, q) ∈ dailyRecent t →
      q = roundTo 2 (daySum (recentData t) d) ∧
        d ∈ dateKeys (recentData t) := by
    intro q hq
    rcases List.mem_map.1 hq with ⟨k, hk, hkq⟩
    rcases Prod.mk.injEq .. ▸ hkq with ⟨h1, h2⟩
    exact ⟨h1 ▸ h2.symm, h1 ▸ hk⟩
  constructor
  · constructor
    · rintro ⟨q, hq⟩
      rcases hchar q hq with ⟨_, hk⟩
      rcases List.mem_map.1 (mem_dateKeys.1 hk) with ⟨r, hr, hrd⟩
      rcases List.mem_filter.1 hr with ⟨hrt, hrw⟩
      exact ⟨⟨r, hrt, hrd⟩, hrd ▸ of_decide_eq_true hrw⟩
    · rintro ⟨⟨r, hr, hrd⟩, hwin⟩
      refine ⟨roundTo 2 (daySum (recentData t) d), List.mem_map.2 ⟨d, ?_, rfl⟩⟩
      exact mem_dateKeys.2 (List.mem_map.2
        ⟨r, List.mem_filter.2 ⟨hr, by simp [hrd, hwin]⟩, hrd⟩)
  · intro q hq
    rcases hchar q hq with ⟨hqe, hk⟩
    rcases List.mem_map.1 (mem_dateKeys.1 hk) with ⟨r, hr, hrd⟩
    rcases List.mem_filter.1 hr with ⟨_, hrw⟩
    rw [hqe, daySum_recentData (hrd ▸ of_decide_eq_true hrw)]

theorem recent_window_witness :
    validTable exC2 ∧
    ((∃ q, ((0 : ℤ), q) ∈ dailyRecent exC2) ↔
      ((∃ r ∈ exC2, r.date = 0) ∧ maxDate exC2 - 30 ≤ 0)) ∧
    (∀ q, ((0 : ℤ), q) ∈ dailyRecent exC2 → q = roundTo 2 (daySum exC2 0)) :=
  ⟨by norm_num [validTable, exC2, mkRow, List.cons_ne_nil]; decide,
   recent_window exC2
     (by norm_num [validTable, exC2, mkRow, List.cons_ne_nil]; decide) 0⟩

/-- **C7**: the 7-day trailing mean is present iff the table has more than 7
distinct transaction dates, the 30-day mean iff more than 30; when present the
retained value is the mean of the last 7 (resp. 30) of the chronologically
ordered daily totals (the last value of the rolling mean), and below the
threshold the field is omitted (`none`), not a placeholder zero. -/
theorem trailing_averages (t : List Txn) (h : validTable t) :
    ((sevenDayAvg t).isSome ↔ 7 < (t.map (·.date)).dedup.length) ∧
    (7 < (t.map (·.date)).dedup.length →
      sevenDayAvg t =
        some (((dailyTotals t).drop ((dailyTotals t).length - 7)).sum / 7)) ∧
    ((t.map (·.date)).dedup.length ≤ 7 → sevenDayAvg t = none) ∧
    ((thirtyDayAvg t).isSome ↔ 30 < (t.map (·.date)).dedup.length) ∧
    (30 < (t.map (·.date)).dedup.length →
      thirtyDayAvg t =
        some (((dailyTotals t).drop ((dailyTotals t).length - 30)).sum / 30)) ∧
    ((t.map (·.date)).dedup.length ≤ 30 → thirtyDayAvg t = none) ∧
    (dateKeys t).Sorted (· < ·) := by
  have hlen : (dailyTotals t).length = (t.map (·.date)).dedup.length := by
    simp [dailyTotals, length_dateKeys]
  refine ⟨?_, ?_, ?_, ?_, ?_, ?_, dateKeys_sorted t⟩
  · by_cases h7 : 7 < (t.map (·.date)).dedup.length <;>
      simp [sevenDayAvg, hlen, h7]
  · intro hc
    simp [sevenDayAvg, lastWindowMean, hlen, hc]
  · intro hc
    simp [sevenDayAvg, hlen, not_lt.2 hc]
  · by_cases h30 : 30 < (t.map (·.date)).dedup.length <;>
      simp [thirtyDayAvg, hlen, h30]
  · intro hc
    simp [thirtyDayAvg, lastWindowMean, hlen, hc]
  · intro hc
    simp [thirtyDayAvg, hlen, not_lt.2 hc]

theorem trailing_averages_witness :
    validTable exC7 ∧
    (((sevenDayAvg exC7).isSome ↔ 7 < (exC7.map (·.date)).dedup.length) ∧
    (7 < (exC7.map (·.date)).dedup.length →
      sevenDayAvg exC7 =
        some (((dailyTotals exC7).drop ((dailyTotals exC7).length - 7)).sum / 7)) ∧
    ((exC7.map (·.date)).dedup.length ≤ 7 → sevenDayAvg exC7 = none) ∧
    (((thirtyDayAvg exC7).isSome ↔ 30 < (exC7.map (·.date)).dedup.length) ∧
    (30 < (exC7.map (·.date)).dedup.length →
      thirtyDayAvg exC7 =
        some (((dailyTotals exC7).drop ((dailyTotals exC7).length - 30)).sum / 30)) ∧
    ((exC7.map (·.date)).dedup.length ≤ 30 → thirtyDayAvg exC7 = none) ∧
    (dateKeys exC7).Sorted (· < ·))) :=
  ⟨by norm_num [validTable, exC7, mkRow, List.cons_ne_nil]; decide,
   trailing_averages exC7
     (by norm_num [validTable, exC7, mkRow, List.cons_ne_nil]; decide)⟩

/-- `_calculate_monthly_trend` on an arbitrary list of monthly totals:
"insufficient data" below 3 buckets, otherwise a strict comparison between
the first and last entries of the trailing 3-element slice. -/
theorem monthlyTrendOf_spec (totals : List ℚ) :
    (monthlyTrendOf totals = "Insufficient data for trend analysis" ↔
      totals.length < 3) ∧
    (3 ≤ totals.length →
      ((monthlyTrendOf totals = "Increasing" ↔
          (totals.drop (totals.length - 3)).headD 0 <
            (totals.drop (totals.length - 3)).getLastD 0) ∧
       (monthlyTrendOf totals = "Decreasing" ↔
          (totals.drop (totals.length - 3)).getLastD 0 <
            (totals.drop (totals.length - 3)).headD 0) ∧
       (monthlyTrendOf totals = "Stable" ↔
          (totals.drop (totals.length - 3)).headD 0 =
            (totals.drop (totals.length - 3)).getLastD 0))) := by
  unfold monthlyTrendOf
  by_cases h3 : totals.length < 3
  · rw [if_pos h3]
    exact ⟨iff_of_true rfl h3, fun hc => absurd h3 (by omega)⟩
  · rw [if_neg h3]
    dsimp only
    generalize (totals.drop (totals.length - 3)).headD 0 = a
    generalize (totals.drop (totals.length - 3)).getLastD 0 = b
    constructor
    · constructor
      · intro he
        split_ifs at he <;> exact absurd he (by decide)
      · intro hc
        exact absurd hc h3
    · intro _
      rcases lt_trichotomy a b with hab | hab | hab
      · rw [if_pos hab]
        exact ⟨iff_of_true rfl hab,
               iff_of_false (by decide) (lt_asymm hab),
               iff_of_false (by decide) (ne_of_lt hab)⟩
      · subst hab
        rw [if_neg (lt_irrefl a), if_neg (lt_irrefl a)]
        exact ⟨iff_of_false (by decide) (lt_irrefl a),
               iff_of_false (by decide) (lt_irrefl a),
               iff_of_true rfl rfl⟩
      · rw [if_neg (lt_asymm hab), if_pos hab]
        exact ⟨iff_of_false (by decide) (lt_asymm hab),
               iff_of_true rfl hab,
               iff_of_false (by decide) (ne_of_gt hab)⟩

/-- **C8**: the monthly trend reports "insufficient data" iff the table has
fewer than 3 distinct `(year, month)` buckets; otherwise the first and last of
the last three chronologically ordered monthly totals — as reported, i.e.
rounded to 2 decimals by `_analyze_by_time` — are compared strictly
(increasing / decreasing / stable; the middle month is not compared). -/
theorem monthly_trend_classification (t : List Txn) (h : validTable t) :
    (monthlyTrend t = "Insufficient data for trend analysis" ↔
      (t.map monthKey).dedup.length < 3) ∧
    (3 ≤ (t.map monthKey).dedup.length →
      ((monthlyTrend t = "Increasing" ↔
          ((monthlyTotalsRounded t).drop ((monthlyTotalsRounded t).length - 3)).headD 0 <
            ((monthlyTotalsRounded t).drop ((monthlyTotalsRounded t).length - 3)).getLastD 0) ∧
       (monthlyTrend t = "Decreasing" ↔
          ((monthlyTotalsRounded t).drop ((monthlyTotalsRounded t).length - 3)).getLastD 0 <
            ((monthlyTotalsRounded t).drop ((monthlyTotalsRounded t).length - 3)).headD 0) ∧
       (monthlyTrend t = "Stable" ↔
          ((monthlyTotalsRounded t).drop ((monthlyTotalsRounded t).length - 3)).headD 0 =
            ((monthlyTotalsRounded t).drop ((monthlyTotalsRounded t).length - 3)).getLastD 0))) ∧
    (monthKeys t).Sorted monthLe ∧ (monthKeys t).Nodup := by
  have hlen : (monthlyTotalsRounded t).length =
      (t.map monthKey).dedup.length := by
    simp [monthlyTotalsRounded, monthlyTotals, length_monthKeys]
  have hs := monthlyTrendOf_spec (monthlyTotalsRounded t)
  unfold monthlyTrend
  rw [← hlen]
  exact ⟨hs.1, hs.2, monthKeys_sorted t, monthKeys_nodup t⟩

theorem monthly_trend_classification_witness :
    validTable exC8 ∧
    ((monthlyTrend exC8 = "Insufficient data for trend analysis" ↔
      (exC8.map monthKey).dedup.length < 3) ∧
    (3 ≤ (exC8.map monthKey).dedup.length →
      ((monthlyTrend exC8 = "Increasing" ↔
          ((monthlyTotalsRounded exC8).drop ((monthlyTotalsRounded exC8).length - 3)).headD 0 <
            ((monthlyTotalsRounded exC8).drop ((monthlyTotalsRounded exC8).length - 3)).getLastD 0) ∧
       (monthlyTrend exC8 = "Decreasing" ↔
          ((monthlyTotalsRounded exC8).drop ((monthlyTotalsRounded exC8).length - 3)).getLastD 0 <
            ((monthlyTotalsRounded exC8).drop ((monthlyTotalsRounded exC8).length - 3)).headD 0) ∧
       (monthlyTrend exC8 = "Stable" ↔
          ((monthlyTotalsRounded exC8).drop ((monthlyTotalsRounded exC8).length - 3)).headD 0 =
            ((monthlyTotalsRounded exC8).drop ((monthlyTotalsRounded exC8).length - 3)).getLastD 0))) ∧
    (monthKeys exC8).Sorted monthLe ∧ (monthKeys exC8).Nodup) :=
  ⟨by norm_num [validTable, exC8, mkRow, List.cons_ne_nil]; decide,
   monthly_trend_classification exC8
     (by norm_num [validTable, exC8, mkRow, List.cons_ne_nil]; decide)⟩

theorem weekendInsight_shape (t : List Txn) :
    ∀ i ∈ weekendInsight t,
      (∃ p, i = Insight.weekendSpending p) ∨
        i = Insight.weekendSpendingNonfinite := by
  intro i hi
  unfold weekendInsight at hi
  split at hi
  · split_ifs at hi <;> simp at hi
    · exact Or.inr hi
    · exact Or.inl ⟨_, hi⟩
  · simp at hi

theorem momInsight_shape (t : List Txn) :
    ∀ i ∈ momInsight t,
      (∃ p, i = Insight.momIncrease p) ∨ (∃ p, i = Insight.momDecrease p) ∨
        i = Insight.momIncreaseNonfinite ∨ i = Insight.momDecreaseNonfinite := by
  intro i hi
  unfold momInsight at hi
  split at hi
  · split_ifs at hi <;> simp at hi
    · exact Or.inl ⟨_, hi⟩
    · exact Or.inr (Or.inl ⟨_, hi⟩)
  · simp at hi
    exact Or.inr (Or.inr (Or.inl hi))
  · simp at hi
    exact Or.inr (Or.inr (Or.inr hi))
  · simp at hi
  · simp at hi

theorem outlierInsight_shape (t : List Txn) :
    ∀ i ∈ outlierInsight t, ∃ c th, i = Insight.outlierCount c th := by
  intro i hi
  unfold outlierInsight at hi
  split_ifs at hi <;> simp at hi
  exact ⟨_, _, hi⟩

theorem mem_gen_cases {t : List Txn} {i : Insight} (hi : i ∈ generateInsights t) :
    i = Insight.topCategory (topCategoryName t)
          (categoryPercentage t (topCategoryName t)) ∨
      i ∈ weekendInsight t ∨ i ∈ momInsight t ∨ i ∈ outlierInsight t := by
  unfold generateInsights at hi
  simp only [List.mem_cons, List.mem_append] at hi
  tauto

theorem gen_of_weekend {t : List Txn} {i : Insight} (h : i ∈ weekendInsight t) :
    i ∈ generateInsights t := by
  unfold generateInsights
  simp only [List.mem_cons, List.mem_append]
  tauto

theorem gen_of_mom {t : List Txn} {i : Insight} (h : i ∈ momInsight t) :
    i ∈ generateInsights t := by
  unfold generateInsights
  simp only [List.mem_cons, List.mem_append]
  tauto

theorem gen_of_outlier {t : List Txn} {i : Insight} (h : i ∈ outlierInsight t) :
    i ∈ generateInsights t := by
  unfold generateInsights
  simp only [List.mem_cons, List.mem_append]
  tauto

theorem mem_gen_weekendSpending (t : List Txn) (p : ℚ) :
    Insight.weekendSpending p ∈ generateInsights t ↔
      Insight.weekendSpending p ∈ weekendInsight t := by
  constructor
  · intro hi
    rcases mem_gen_cases hi with he | hw | hm | ho
    · exact absurd he (by simp)
    · exact hw
    · rcases momInsight_shape t _ hm with ⟨q, hq⟩ | ⟨q, hq⟩ | hq | hq <;>
        simp at hq
    · rcases outlierInsight_shape t _ ho with ⟨c, th, hq⟩
      simp at hq
  · exact gen_of_weekend

theorem mem_gen_weekendSpendingNonfinite (t : List Txn) :
    Insight.weekendSpendingNonfinite ∈ generateInsights t ↔
      Insight.weekendSpendingNonfinite ∈ weekendInsight t := by
  constructor
  · intro hi
    rcases mem_gen_cases hi with he | hw | hm | ho
    · exact absurd he (by simp)
    · exact hw
    · rcases momInsight_shape t _ hm with ⟨q, hq⟩ | ⟨q, hq⟩ | hq | hq <;>
        simp at hq
    · rcases outlierInsight_shape t _ ho with ⟨c, th, hq⟩
      simp at hq
  · exact gen_of_weekend

theorem mem_gen_momIncrease (t : List Txn) (p : ℚ) :
    Insight.momIncrease p ∈ generateInsights t ↔
      Insight.momIncrease p ∈ momInsight t := by
  constructor
  · intro hi
    rcases mem_gen_cases hi with he | hw | hm | ho
    · exact absurd he (by simp)
    · rcases weekendInsight_shape t _ hw with ⟨q, hq⟩ | hq <;> simp at hq
    · exact hm
    · rcases outlierInsight_shape t _ ho with ⟨c, th, hq⟩
      simp at hq
  · exact gen_of_mom

theorem mem_gen_momDecrease (t : List Txn) (p : ℚ) :
    Insight.momDecrease p ∈ generateInsights t ↔
      Insight.momDecrease p ∈ momInsight t := by
  constructor
  · intro hi
    rcases mem_gen_cases hi with he | hw | hm | ho
    · exact absurd he (by simp)
    · rcases weekendInsight_shape t _ hw with ⟨q, hq⟩ | hq <;> simp at hq
    · exact hm
    · rcases outlierInsight_shape t _ ho with ⟨c, th, hq⟩
      simp at hq
  · exact gen_of_mom

theorem mem_gen_outlierCount (t : List Txn) (c : ℕ) (th : ℚ) :
    Insight.outlierCount c th ∈ generateInsights t ↔
      Insight.outlierCount c th ∈ outlierInsight t := by
  constructor
  · intro hi
    rcases mem_gen_cases hi with he | hw | hm | ho
    · exact absurd he (by simp)
    · rcases weekendInsight_shape t _ hw with ⟨q, hq⟩ | hq <;> simp at hq
    · rcases momInsight_shape t _ hm with ⟨q, hq⟩ | ⟨q, hq⟩ | hq | hq <;>
        simp at hq
    · exact ho
  · exact gen_of_outlier

theorem weekendInsight_mem_iff (t : List Txn) (p : ℚ) :
    Insight.weekendSpending p ∈ weekendInsight t ↔
      ∃ a b, weekendAvg t = some a ∧ weekdayAvg t = some b ∧
        b * (12 / 10) < a ∧ ¬b = 0 ∧ p = roundTo 1 ((a / b - 1) * 100) := by
  unfold weekendInsight
  rcases hwa : weekendAvg t with _ | a <;> rcases hwd : weekdayAvg t with _ | b
  · simp
  · simp
  · simp
  · dsimp only
    split_ifs with hcond hb
    · constructor
      · intro hmem
        simp at hmem
      · rintro ⟨a', b', ha', hb', _, hb0, _⟩
        obtain rfl : a' = a := by simpa using ha'.symm
        obtain rfl : b' = b := by simpa using hb'.symm
        exact absurd hb hb0
    · simp only [List.mem_singleton, Insight.weekendSpending.injEq]
      constructor
      · intro hp
        exact ⟨a, b, rfl, rfl, hcond, hb, hp⟩
      · rintro ⟨a', b', ha', hb', _, _, hp⟩
        obtain rfl : a' = a := by simpa using ha'.symm
        obtain rfl : b' = b := by simpa using hb'.symm
        exact hp
    · constructor
      · intro hmem
        simp at hmem
      · rintro ⟨a', b', ha', hb', hc', _, _⟩
        obtain rfl : a' = a := by simpa using ha'.symm
        obtain rfl : b' = b := by simpa using hb'.symm
        exact absurd hc' hcond

theorem weekendInsightNF_mem_iff (t : List Txn) :
    Insight.weekendSpendingNonfinite ∈ weekendInsight t ↔
      ∃ a b, weekendAvg t = some a ∧ weekdayAvg t = some b ∧
        b * (12 / 10) < a ∧ b = 0 := by
  unfold weekendInsight
  rcases hwa : weekendAvg t with _ | a <;> rcases hwd : weekdayAvg t with _ | b
  · simp
  · simp
  · simp
  · dsimp only
    split_ifs with hcond hb
    · exact iff_of_true (List.mem_singleton_self _) ⟨a, b, rfl, rfl, hcond, hb⟩
    · constructor
      · intro hmem
        simp at hmem
      · rintro ⟨a', b', ha', hb', _, hb0⟩
        obtain rfl : a' = a := by simpa using ha'.symm
        obtain rfl : b' = b := by simpa using hb'.symm
        exact absurd hb0 hb
    · constructor
      · intro hmem
        simp at hmem
      · rintro ⟨a', b', ha', hb', hc', _⟩
        obtain rfl : a' = a := by simpa using ha'.symm
        obtain rfl : b' = b := by simpa using hb'.symm
        exact absurd hc' hcond

theorem momInsight_inc_iff (t : List Txn) (p : ℚ) :
    Insight.momIncrease p ∈ momInsight t ↔
      momGrowth t = MomGrowth.value p ∧ 10 < p := by
  unfold momInsight
  rcases hg : momGrowth t with _ | _ | _ | _ | g
  · simp
  · simp
  · simp
  · simp
  · dsimp only
    split_ifs with h1 h2
    · simp only [List.mem_singleton, MomGrowth.value.injEq]
      constructor
      · intro he
        have hp : p = g := by simpa using he
        subst hp
        exact ⟨rfl, h1⟩
      · rintro ⟨hv, _⟩
        simp [hv]
    · simp only [List.mem_singleton]
      constructor
      · intro he
        simp at he
      · rintro ⟨hv, hp⟩
        have : g = p := by simpa using hv
        subst this
        exact absurd hp (by linarith)
    · simp only [List.not_mem_nil, false_iff, not_and]
      intro hv
      have : g = p := by simpa using hv
      subst this
      intro hp
      exact h1 hp

theorem momInsight_dec_iff (t : List Txn) (p : ℚ) :
    Insight.momDecrease p ∈ momInsight t ↔
      ∃ g, momGrowth t = MomGrowth.value g ∧ g < -10 ∧ p = |g| := by
  unfold momInsight
  rcases hg : momGrowth t with _ | _ | _ | _ | g
  · simp
  · simp
  · simp
  · simp
  · dsimp only
    split_ifs with h1 h2
    · simp only [List.mem_singleton]
      constructor
      · intro he
        simp at he
      · rintro ⟨g', hg', hlt, _⟩
        have : g = g' := by simpa using hg'
        subst this
        exact absurd h1 (by linarith)
    · simp only [List.mem_singleton, MomGrowth.value.injEq]
      constructor
      · intro he
        have hp : p = |g| := by simpa using he
        exact ⟨g, rfl, h2, hp⟩
      · rintro ⟨g', hg', hlt, hp⟩
        subst hg'
        simp [hp]
    · simp only [List.not_mem_nil, false_iff, not_exists]
      rintro g' ⟨hg', hlt, _⟩
      have : g = g' := by simpa using hg'
      subst this
      exact h2 hlt

theorem outlierInsight_mem_iff (t : List Txn) (c : ℕ) (th : ℚ) :
    Insight.outlierCount c th ∈ outlierInsight t ↔
      0 < numOutliers t ∧ c = numOutliers t ∧
        th = roundTo 2 (outlierThreshold t) := by
  unfold outlierInsight
  split_ifs with hn <;> simp [hn]

theorem weekendInsight_eq_nil_of_none {t : List Txn}
    (h : weekendAvg t = none ∨ weekdayAvg t = none) :
    weekendInsight t = [] := by
  unfold weekendInsight
  rcases hwa : weekendAvg t with _ | a <;> rcases hwd : weekdayAvg t with _ | b <;>
    simp_all

/-- **C9**: when the weekend or the weekday partition is empty, the
corresponding mean in `weekend_vs_weekday` is undefined (pandas `NaN`, here
`none`) and the weekend-spending insight is never emitted, because the strict
comparison `weekend_avg > weekday_avg * 1.2` is false when an operand is
undefined. -/
theorem empty_partition_weekend (t : List Txn) (h : validTable t)
    (hsplit : t.filter (·.isWeekend) = [] ∨
      t.filter (fun r => !r.isWeekend) = []) :
    (weekendAvg t = none ∨ weekdayAvg t = none) ∧
    (t.filter (·.isWeekend) = [] → weekendAvg t = none) ∧
    (t.filter (fun r => !r.isWeekend) = [] → weekdayAvg t = none) ∧
    (∀ p, Insight.weekendSpending p ∉ generateInsights t) ∧
    Insight.weekendSpendingNonfinite ∉ generateInsights t := by
  have h1 : t.filter (·.isWeekend) = [] → weekendAvg t = none := by
    intro hf
    simp [weekendAvg, weekendAmounts, hf, meanOf]
  have h2 : t.filter (fun r => !r.isWeekend) = [] → weekdayAvg t = none := by
    intro hf
    simp [weekdayAvg, weekdayAmounts, hf, meanOf]
  have hnone : weekendAvg t = none ∨ weekdayAvg t = none := by
    rcases hsplit with hf | hf
    · exact Or.inl (h1 hf)
    · exact Or.inr (h2 hf)
  have hnil := weekendInsight_eq_nil_of_none hnone
  refine ⟨hnone, h1, h2, ?_, ?_⟩
  · intro p hp
    rw [mem_gen_weekendSpending] at hp
    simp [hnil] at hp
  · intro hp
    rw [mem_gen_weekendSpendingNonfinite] at hp
    simp [hnil] at hp

theorem empty_partition_weekend_witness :
    validTable exW ∧
    (exW.filter (·.isWeekend) = [] ∨ exW.filter (fun r => !r.isWeekend) = []) ∧
    ((weekendAvg exW = none ∨ weekdayAvg exW = none) ∧
    (exW.filter (·.isWeekend) = [] → weekendAvg exW = none) ∧
    (exW.filter (fun r => !r.isWeekend) = [] → weekdayAvg exW = none) ∧
    (∀ p, Insight.weekendSpending p ∉ generateInsights exW) ∧
    Insight.weekendSpendingNonfinite ∉ generateInsights exW) :=
  ⟨by norm_num [validTable, exW, mkRow, List.cons_ne_nil]; decide,
   Or.inl (by simp [exW, mkRow]),
   empty_partition_weekend exW
     (by norm_num [validTable, exW, mkRow, List.cons_ne_nil]; decide)
     (Or.inl (by simp [exW, mkRow]))⟩

/-- **C10**: for a valid table the insights list has between 1 and 4 entries
and its first entry is always the top-category insight, naming the single top
category and its (rounded) percentage share. -/
theorem insights_count (t : List Txn) (h : validTable t) :
    1 ≤ (generateInsights t).length ∧ (generateInsights t).length ≤ 4 ∧
    (generateInsights t).head? =
      some (Insight.topCategory (topCategoryName t)
        (categoryPercentage t (topCategoryName t))) := by
  have hw : (weekendInsight t).length ≤ 1 := by
    unfold weekendInsight
    split
    · split_ifs <;> simp
    · simp
  have hm : (momInsight t).length ≤ 1 := by
    unfold momInsight
    split
    · split_ifs <;> simp
    all_goals simp
  have ho : (outlierInsight t).length ≤ 1 := by
    unfold outlierInsight
    split_ifs <;> simp
  refine ⟨?_, ?_, ?_⟩
  · simp [generateInsights]
  · simp only [generateInsights, List.length_cons, List.length_append]
    omega
  · simp [generateInsights]

theorem insights_count_witness :
    validTable exW ∧
    (1 ≤ (generateInsights exW).length ∧ (generateInsights exW).length ≤ 4 ∧
    (generateInsights exW).head? =
      some (Insight.topCategory (topCategoryName exW)
        (categoryPercentage exW (topCategoryName exW)))) :=
  ⟨by norm_num [validTable, exW, mkRow, List.cons_ne_nil]; decide,
   insights_count exW
     (by norm_num [validTable, exW, mkRow, List.cons_ne_nil]; decide)⟩

/-- On a valid table a defined weekday mean is strictly positive (so it is in
particular nonzero as a divisor). -/
theorem weekdayAvg_pos {t : List Txn} (h : validTable t) {b : ℚ}
    (hb : weekdayAvg t = some b) : 0 < b := by
  apply meanOf_pos _ hb
  intro x hx
  unfold weekdayAmounts at hx
  rcases List.mem_map.1 hx with ⟨r, hr, rfl⟩
  exact (h.2 r (List.mem_of_mem_filter hr)).1

/-- **C4**: insight derivation emits the weekend-spending insight iff
`weekend_avg > weekday_avg * 1.2` (strict), with content
`round((weekend_avg / weekday_avg - 1) * 100, 1)`; emits a month-over-month
insight iff `mom_growth` is present and `> 10` (increase) or `< -10`
(decrease, content the absolute value), nothing for values in `[-10, 10]`;
and emits the outlier-count insight iff `num_outliers > 0`, citing the count
and the rounded threshold. -/
theorem insight_rules (t : List Txn) (h : validTable t) :
    ((∃ p, Insight.weekendSpending p ∈ generateInsights t) ↔
      (∃ a b, weekendAvg t = some a ∧ weekdayAvg t = some b ∧
        b * (12 / 10) < a)) ∧
    (∀ a b, weekendAvg t = some a → weekdayAvg t = some b →
      b * (12 / 10) < a →
      Insight.weekendSpending (roundTo 1 ((a / b - 1) * 100)) ∈
        generateInsights t) ∧
    ((∃ p, Insight.momIncrease p ∈ generateInsights t) ↔
      (∃ g, momGrowth t = MomGrowth.value g ∧ 10 < g)) ∧
    ((∃ p, Insight.momDecrease p ∈ generateInsights t) ↔
      (∃ g, momGrowth t = MomGrowth.value g ∧ g < -10)) ∧
    (∀ g, momGrowth t = MomGrowth.value g → 10 < g →
      Insight.momIncrease g ∈ generateInsights t) ∧
    (∀ g, momGrowth t = MomGrowth.value g → g < -10 →
      Insight.momDecrease |g| ∈ generateInsights t) ∧
    (∀ g, momGrowth t = MomGrowth.value g → -10 ≤ g → g ≤ 10 →
      (∀ p, Insight.momIncrease p ∉ generateInsights t) ∧
      (∀ p, Insight.momDecrease p ∉ generateInsights t)) ∧
    (Insight.outlierCount (numOutliers t) (roundTo 2 (outlierThreshold t)) ∈
        generateInsights t ↔ 0 < numOutliers t) ∧
    (∀ c th, Insight.outlierCount c th ∈ generateInsights t →
      c = numOutliers t ∧ th = roundTo 2 (outlierThreshold t)) := by
  refine ⟨?_, ?_, ?_, ?_, ?_, ?_, ?_, ?_, ?_⟩
  · constructor
    · rintro ⟨p, hp⟩
      rw [mem_gen_weekendSpending, weekendInsight_mem_iff] at hp
      rcases hp with ⟨a, b, hwa, hwd, hc, _, _⟩
      exact ⟨a, b, hwa, hwd, hc⟩
    · rintro ⟨a, b, hwa, hwd, hc⟩
      have hb0 : ¬b = 0 := ne_of_gt (weekdayAvg_pos h hwd)
      exact ⟨_, (mem_gen_weekendSpending t _).2
        ((weekendInsight_mem_iff t _).2 ⟨a, b, hwa, hwd, hc, hb0, rfl⟩)⟩
  · intro a b hwa hwd hc
    have hb0 : ¬b = 0 := ne_of_gt (weekdayAvg_pos h hwd)
    exact (mem_gen_weekendSpending t _).2
      ((weekendInsight_mem_iff t _).2 ⟨a, b, hwa, hwd, hc, hb0, rfl⟩)
  · constructor
    · rintro ⟨p, hp⟩
      rw [mem_gen_momIncrease, momInsight_inc_iff] at hp
      exact ⟨p, hp.1, hp.2⟩
    · rintro ⟨g, hg, hgt⟩
      exact ⟨g, (mem_gen_momIncrease t g).2
        ((momInsight_inc_iff t g).2 ⟨hg, hgt⟩)⟩
  · constructor
    · rintro ⟨p, hp⟩
      rw [mem_gen_momDecrease, momInsight_dec_iff] at hp
      rcases hp with ⟨g, hg, hlt, _⟩
      exact ⟨g, hg, hlt⟩
    · rintro ⟨g, hg, hlt⟩
      exact ⟨|g|, (mem_gen_momDecrease t _).2
        ((momInsight_dec_iff t _).2 ⟨g, hg, hlt, rfl⟩)⟩
  · intro g hg hgt
    exact (mem_gen_momIncrease t g).2 ((momInsight_inc_iff t g).2 ⟨hg, hgt⟩)
  · intro g hg hlt
    exact (mem_gen_momDecrease t _).2
      ((momInsight_dec_iff t _).2 ⟨g, hg, hlt, rfl⟩)
  · intro g hg hge hle
    constructor
    · intro p hp
      rw [mem_gen_momIncrease, momInsight_inc_iff, hg] at hp
      rcases hp with ⟨hv, hgt⟩
      have : g = p := by simpa using hv
      subst this
      exact absurd hgt (by linarith)
    · intro p hp
      rw [mem_gen_momDecrease, momInsight_dec_iff, hg] at hp
      rcases hp with ⟨g', hv, hlt, _⟩
      have : g = g' := by simpa using hv
      subst this
      exact absurd hlt (by linarith)
  · rw [mem_gen_outlierCount, outlierInsight_mem_iff]
    simp
  · intro c th hc
    rw [mem_gen_outlierCount, outlierInsight_mem_iff] at hc
    exact ⟨hc.2.1, hc.2.2⟩

theorem insight_rules_witness :
    validTable exW ∧
    (((∃ p, Insight.weekendSpending p ∈ generateInsights exW) ↔
      (∃ a b, weekendAvg exW = some a ∧ weekdayAvg exW = some b ∧
        b * (12 / 10) < a)) ∧
    (∀ a b, weekendAvg exW = some a → weekdayAvg exW = some b →
      b * (12 / 10) < a →
      Insight.weekendSpending (roundTo 1 ((a / b - 1) * 100)) ∈
        generateInsights exW) ∧
    ((∃ p, Insight.momIncrease p ∈ generateInsights exW) ↔
      (∃ g, momGrowth exW = MomGrowth.value g ∧ 10 < g)) ∧
    ((∃ p, Insight.momDecrease p ∈ generateInsights exW) ↔
      (∃ g, momGrowth exW = MomGrowth.value g ∧ g < -10)) ∧
    (∀ g, momGrowth exW = MomGrowth.value g → 10 < g →
      Insight.momIncrease g ∈ generateInsights exW) ∧
    (∀ g, momGrowth exW = MomGrowth.value g → g < -10 →
      Insight.momDecrease |g| ∈ generateInsights exW) ∧
    (∀ g, momGrowth exW = MomGrowth.value g → -10 ≤ g → g ≤ 10 →
      (∀ p, Insight.momIncrease p ∉ generateInsights exW) ∧
      (∀ p, Insight.momDecrease p ∉ generateInsights exW)) ∧
    (Insight.outlierCount (numOutliers exW)
        (roundTo 2 (outlierThreshold exW)) ∈
        generateInsights exW ↔ 0 < numOutliers exW) ∧
    (∀ c th, Insight.outlierCount c th ∈ generateInsights exW →
      c = numOutliers exW ∧ th = roundTo 2 (outlierThreshold exW))) :=
  ⟨by norm_num [validTable, exW, mkRow, List.cons_ne_nil]; decide,
   insight_rules exW
     (by norm_num [validTable, exW, mkRow, List.cons_ne_nil]; decide)⟩

/-- Inserting a row whose label is strictly below every label in `l` preserves
the tie-break invariant: on equal totals the insertion point is in front of the
ties, and on strictly greater totals no tie with the passed head can occur. -/
theorem pairwise_tieBreak_orderedInsert (x : String × ℚ) :
    ∀ l : List (String × ℚ),
      (∀ y ∈ l, strLe x.1 y.1 ∧ x.1 ≠ y.1) →
      l.Pairwise tieBreak →
      (l.orderedInsert byTotalDesc x).Pairwise tieBreak := by
  intro l
  induction l with
  | nil =>
    intro _ _
    simp [List.orderedInsert, tieBreak]
  | cons y ys ih =>
    intro hx hl
    rw [List.orderedInsert]
    split_ifs with hba
    · refine List.pairwise_cons.2 ⟨?_, hl⟩
      intro z hz
      exact fun _ => hx z hz
    · rcases List.pairwise_cons.1 hl with ⟨hy, hys⟩
      refine List.pairwise_cons.2
        ⟨?_, ih (fun z hz => hx z (List.mem_cons_of_mem y hz)) hys⟩
      intro z hz
      rcases (List.mem_orderedInsert byTotalDesc).1 hz with rfl | hz'
      · intro heq
        exact absurd (le_of_eq heq) hba
      · exact hy z hz'

/-- The stable descending sort of a list whose labels are strictly ascending
keeps every group of equal totals in ascending label order. -/
theorem pairwise_tieBreak_insertionSort :
    ∀ l : List (String × ℚ),
      l.Pairwise (fun p q => strLe p.1 q.1 ∧ p.1 ≠ q.1) →
      (List.insertionSort byTotalDesc l).Pairwise tieBreak := by
  intro l
  induction l with
  | nil =>
    intro _
    simp [List.insertionSort]
  | cons x xs ih =>
    intro hl
    rcases List.pairwise_cons.1 hl with ⟨hx, hxs⟩
    rw [List.insertionSort]
    apply pairwise_tieBreak_orderedInsert
    · intro y hy
      exact hx y ((List.mem_insertionSort byTotalDesc).1 hy)
    · exact ih hxs

/-- **C3** (counterexample): in `exC3` the label `"Zoo"` appears first in the
table and both categories have the same total, yet the breakdown lists
`"Apple"` first: `groupby` emits the labels in ascending label order, not in
first-appearance order, so the claimed first-appearance tie-break fails. -/
theorem category_order_counterexample :
    exC3.map (·.category) = ["Zoo", "Apple"] ∧
    catSum exC3 "Zoo" = catSum exC3 "Apple" ∧
    categoryOrder exC3 = ["Apple", "Zoo"] ∧
    categoryOrder exC3 ≠ ["Zoo", "Apple"] := by
  have hmap : exC3.map (·.category) = ["Zoo", "Apple"] := by
    simp [exC3, mkRow]
  have hZ : catSum exC3 "Zoo" = 5 := by
    norm_num [catSum, exC3, mkRow, List.filter,
      (show (decide ("Apple" = "Zoo")) = false from by decide),
      (show (decide ("Zoo" = "Zoo")) = true from by decide)]
  have hA : catSum exC3 "Apple" = 5 := by
    norm_num [catSum, exC3, mkRow, List.filter,
      (show (decide ("Zoo" = "Apple")) = false from by decide),
      (show (decide ("Apple" = "Apple")) = true from by decide)]
  have hkeys : catKeys exC3 = ["Apple", "Zoo"] := by
    simp [catKeys, exC3, mkRow, List.insertionSort, List.orderedInsert,
      List.dedup_cons_of_not_mem, (show ¬strLe "Zoo" "Apple" from by decide),
      (show strLe "Apple" "Zoo" from by decide)]
  have hr5 : roundTo 2 (5 : ℚ) = 5 := by
    simpa using roundTo_intCast 2 5
  have hpairs : categoryPairs exC3 = [("Apple", 5), ("Zoo", 5)] := by
    simp [categoryPairs, hkeys, hZ, hA, hr5]
  have horder : categoryOrder exC3 = ["Apple", "Zoo"] := by
    unfold categoryOrder categorySorted
    rw [hpairs]
    norm_num [List.insertionSort, List.orderedInsert, byTotalDesc]
  exact ⟨hmap, hZ.trans hA.symm, horder, by rw [horder]; decide⟩

/-- **C3** (amended): the category breakdown lists categories in descending
order of (rounded) total spend, and whenever two categories have equal totals
their relative order is ascending label (code-point) order — `groupby` emits
group keys sorted by label and the descending sort is stable — not
first-appearance order; `top_categories` is the first 5 entries of this
order. -/
theorem category_order_spec (t : List Txn) (h : validTable t) :
    (categorySorted t).Pairwise
      (fun p q => q.2 ≤ p.2 ∧ (p.2 = q.2 → strLe p.1 q.1 ∧ p.1 ≠ q.1)) ∧
    topCategories t = (categorySorted t).take 5 ∧
    List.Perm (categorySorted t) (categoryPairs t) ∧
    categoryOrder t = (categorySorted t).map (·.1) := by
  refine ⟨?_, rfl, List.perm_insertionSort _ _, rfl⟩
  have h1 : (categorySorted t).Pairwise byTotalDesc :=
    List.sorted_insertionSort _ _
  have h2 : (categorySorted t).Pairwise tieBreak := by
    apply pairwise_tieBreak_insertionSort
    unfold categoryPairs
    rw [List.pairwise_map]
    have hs : (catKeys t).Sorted strLe := List.sorted_insertionSort _ _
    have hn : (catKeys t).Nodup :=
      ((List.perm_insertionSort _ _).nodup_iff).2 (List.nodup_dedup _)
    exact hs.and hn
  exact h1.and h2

theorem category_order_spec_witness :
    validTable exC3 ∧
    ((categorySorted exC3).Pairwise
      (fun p q => q.2 ≤ p.2 ∧ (p.2 = q.2 → strLe p.1 q.1 ∧ p.1 ≠ q.1)) ∧
    topCategories exC3 = (categorySorted exC3).take 5 ∧
    List.Perm (categorySorted exC3) (categoryPairs exC3) ∧
    categoryOrder exC3 = (categorySorted exC3).map (·.1)) :=
  ⟨by norm_num [validTable, exC3, mkRow, List.cons_ne_nil]; decide,
   category_order_spec exC3
     (by norm_num [validTable, exC3, mkRow, List.cons_ne_nil]; decide)⟩

end FinGPT
